import Mathlib

/-!
Verification of the Markdown-splitting script `scripts/python/split_md_for_mkdocs.py`
of the xxrjun/CppCoreGuidelines repository.

The script is shallowly embedded: strings are `List Char`, the filesystem is an
explicit association list from paths to file contents, and console output is a log
list (modelled only where a claim refers to a reported message).  Regular-expression
operations of the source are translated into the deterministic parsers that the
concrete patterns denote (each pattern is analysed in the doc comment of its
translation).  Character classes (`\s`, `\w`, `str.lower`) are modelled over ASCII.
-/

/-- Python whitespace class over ASCII: space, tab, LF, VT, FF, CR
(the characters matched by the regex class used throughout the script). -/
def isSpaceChar (c : Char) : Bool :=
  c.toNat == 32 || c.toNat == 9 || c.toNat == 10 || c.toNat == 11 || c.toNat == 12 || c.toNat == 13

/-- Python word-character class over ASCII: letters, digits and underscore. -/
def isWordChar (c : Char) : Bool :=
  (decide (97 ≤ c.toNat) && decide (c.toNat ≤ 122)) ||
  (decide (65 ≤ c.toNat) && decide (c.toNat ≤ 90)) ||
  (decide (48 ≤ c.toNat) && decide (c.toNat ≤ 57)) || c.toNat == 95

/-- ASCII lowercasing of one character, the model of Python `str.lower`. -/
def toLowerChar (c : Char) : Char :=
  if 65 ≤ c.toNat ∧ c.toNat ≤ 90 then Char.ofNat (c.toNat + 32) else c

/-- Python `str.strip()`: drop whitespace from both ends. -/
def stripChars (l : List Char) : List Char :=
  ((l.dropWhile isSpaceChar).reverse.dropWhile isSpaceChar).reverse

/-- Python `str.lstrip()`: drop leading whitespace. -/
def lstripChars (l : List Char) : List Char :=
  l.dropWhile isSpaceChar

/-- Helper of `collapseWs`: returns the rewritten list together with a flag telling
whether the input began with a whitespace run (so that a preceding whitespace
character joins that run instead of emitting a second hyphen). -/
def collapseWsAux : List Char → List Char × Bool
  | [] => ([], false)
  | c :: rest =>
      let r := collapseWsAux rest
      if isSpaceChar c then (if r.2 then r.1 else '-' :: r.1, true)
      else (c :: r.1, false)

/-- Model of `re.sub(r'\s+', '-', text)`: every maximal whitespace run becomes one hyphen. -/
def collapseWs (l : List Char) : List Char :=
  (collapseWsAux l).1

/-- Characters kept by `re.sub(r'[^\w\-]', '', text)`: word characters and hyphens. -/
def slugChar (c : Char) : Bool :=
  isWordChar c || c == '-'

/-- `slugify` of the script: lowercase, strip, collapse whitespace runs to hyphens,
remove the remaining non-word non-hyphen characters. -/
def slugify (text : List Char) : List Char :=
  let t1 := stripChars (text.map toLowerChar)
  let t2 := collapseWs t1
  t2.filter slugChar

/-- The model of `process_heading_line`.  The source matches
`^(#{1,6}\s+)(<a\s+name="([^"]+)"></a>)(.*)` against the line.  With backtracking
resolved this regex matches exactly when: the line begins with one to six `#`
followed by at least one whitespace character (a maximal run, since the next
character must be `<`), then literally `<a`, a nonempty maximal whitespace run,
`name="`, a nonempty run of non-quote characters (the anchor id), and literally
`"></a>`; group 4 is the remainder of the line.  On a match the source returns
`prefix + rest + " {#" + id + "}"` where `rest` is the stripped group 4, replaced
by the id when the stripped remainder is empty; otherwise the line is returned
unchanged. -/
def processHeadingLine (line : List Char) : List Char :=
  let hashes := line.takeWhile (fun c => c == '#')
  let r1 := line.dropWhile (fun c => c == '#')
  let ws := r1.takeWhile isSpaceChar
  let r2 := r1.dropWhile isSpaceChar
  if 1 ≤ hashes.length ∧ hashes.length ≤ 6 ∧ ws ≠ [] ∧ r2.take 2 = ['<', 'a'] then
    let r3 := r2.drop 2
    let ws2 := r3.takeWhile isSpaceChar
    let r4 := r3.dropWhile isSpaceChar
    if ws2 ≠ [] ∧ List.isPrefixOf "name=\"".toList r4 then
      let r5 := r4.drop 6
      let anchorName := r5.takeWhile (fun c => c != '"')
      let r6 := r5.dropWhile (fun c => c != '"')
      if anchorName ≠ [] ∧ r6.take 6 = "\x22></a>".toList then
        let tail := r6.drop 6
        let rest0 := stripChars tail
        let rest := if rest0 = [] then anchorName else rest0
        hashes ++ ws ++ rest ++ ' ' :: '{' :: '#' :: (anchorName ++ ['}'])
      else line
    else line
  else line

/-- The filesystem and console of one run: an association list from paths to file
contents (later writes are consed in front, so `lookupFile` sees the newest write)
and a log of reported messages.  Console output is modelled only where a claim
refers to it (the missing-input report and the missing-asset warning). -/
structure World where
  files : List (List Char × List Char)
  log : List (List Char)
deriving DecidableEq

/-- Content of the file at path `p`, newest write first (Python `open(..., "w")`
truncates, so only the newest write is visible). -/
def lookupFile (p : List Char) : List (List Char × List Char) → Option (List Char)
  | [] => none
  | (q, c) :: rest => if q = p then some c else lookupFile p rest

/-- Model of writing a file: the new version shadows any previous one. -/
def writeFile (p c : List Char) (fs : List (List Char × List Char)) :
    List (List Char × List Char) :=
  (p, c) :: fs

/-- Apply a list of writes in order (a later write to the same path wins). -/
def applyWrites (ws : List (List Char × List Char)) (fs : List (List Char × List Char)) :
    List (List Char × List Char) :=
  ws.foldl (fun acc pc => writeFile pc.1 pc.2 acc) fs

/-- `os.path.basename`: the text after the last slash. -/
def basename (p : List Char) : List Char :=
  (p.reverse.takeWhile (fun c => c != '/')).reverse

/-- Model of `re.sub(r'^(?:\./|\.\./)+', '', path)`: strip the longest leading
concatenation of `./` and `../` segments. -/
def stripDotSegs : List Char → List Char
  | '.' :: '/' :: rest => stripDotSegs rest
  | '.' :: '.' :: '/' :: rest => stripDotSegs rest
  | l => l

/-- `os.path.join` for the two-argument uses of the script: an absolute second
component replaces the first, otherwise the components are joined with a slash. -/
def joinPath (base p : List Char) : List Char :=
  if List.isPrefixOf "/".toList p then p else base ++ '/' :: p

def warnMsg (sourcePath : List Char) : List Char :=
  "WARNING: Image file \x27".toList ++ sourcePath ++ "\x27 not found.".toList

/-- `copy_and_update_image`, the callback of the image-reference substitution.
`pre`, `path0` and `suf` are the three capture groups of one match (so the full
matched text is their concatenation).  Nonexistence of the source file is the
`os.path.exists` test; the `shutil.copy2` call cannot fail in this filesystem
model, so the copy-exception branch of the source is not reachable here. -/
def copy_and_update_image (pre path0 suf baseDir : List Char) (w : World) :
    World × List Char :=
  let path := stripChars path0
  let whole := pre ++ path0 ++ suf
  if List.isPrefixOf "http".toList path ∨ List.isPrefixOf "/".toList path then
    (w, whole)
  else
    let normalized := stripDotSegs path
    let sourcePath := joinPath baseDir normalized
    match lookupFile sourcePath w.files with
    | none => ({ w with log := warnMsg sourcePath :: w.log }, whole)
    | some content =>
        let destPath := "docs/src/".toList ++ basename sourcePath
        let newLink := "src/".toList ++ basename sourcePath
        ({ w with files := writeFile destPath content w.files }, pre ++ newLink ++ suf)

/-- One attempt of the image pattern `(!\[[^\]]*\]\()([^\s\)]+)([^\)]*\))` at the
head of `l`.  With backtracking resolved, a match is: `![`, then the non-`]`
characters up to a mandatory `]` and `(`, then a nonempty maximal run of
non-whitespace non-`)` characters (group 2), then the non-`)` characters up to a
mandatory `)`.  Returns the three groups and the rest of the input. -/
def tryImageMatch (l : List Char) :
    Option (List Char × List Char × List Char × List Char) :=
  match l with
  | '!' :: '[' :: rest =>
      let alt := rest.takeWhile (fun c => c != ']')
      match rest.dropWhile (fun c => c != ']') with
      | ']' :: '(' :: rest2 =>
          let path := rest2.takeWhile (fun c => !isSpaceChar c && c != ')')
          if path = [] then none
          else
            let rest3 := rest2.dropWhile (fun c => !isSpaceChar c && c != ')')
            let mid := rest3.takeWhile (fun c => c != ')')
            match rest3.dropWhile (fun c => c != ')') with
            | ')' :: rest4 =>
                some ('!' :: '[' :: (alt ++ ']' :: '(' :: []), path, mid ++ [')'], rest4)
            | _ => none
      | _ => none
  | _ => none

/-- Left-to-right scan of `re.sub` with the image pattern: at each position try a
match; on success emit the callback result and continue after the match, otherwise
emit the character and move on.  The fuel argument (instantiated with the input
length) only makes the recursion structural; a successful match always consumes
at least the two characters `![`, so the fuel never runs out. -/
def imageScanFuel (baseDir : List Char) : Nat → World → List Char → World × List Char
  | 0, w, l => (w, l)
  | _ + 1, w, [] => (w, [])
  | fuel + 1, w, c :: rest =>
      match tryImageMatch (c :: rest) with
      | some (pre, path0, suf, rem) =>
          let wr := copy_and_update_image pre path0 suf baseDir w
          let out := imageScanFuel baseDir fuel wr.1 rem
          (out.1, wr.2 ++ out.2)
      | none =>
          let out := imageScanFuel baseDir fuel w rest
          (out.1, c :: out.2)

def imageScan (baseDir : List Char) (w : World) (content : List Char) : World × List Char :=
  imageScanFuel baseDir content.length w content

/-- Model of `re.sub(r'\(\s*/#', r'(#', content)`.  The second argument holds the
pending text `(` plus a whitespace run (reversed) while a candidate match is open;
a candidate fails at the first non-whitespace character that is not `/#`, and no
match can start inside the pending text except at another `(`. -/
def fixAnchorAux : List Char → Option (List Char) → List Char
  | [], none => []
  | [], some pend => pend.reverse
  | c :: rest, none =>
      if c = '(' then fixAnchorAux rest (some ['('])
      else c :: fixAnchorAux rest none
  | '/' :: '#' :: rest2, some _ => '(' :: '#' :: fixAnchorAux rest2 none
  | c :: rest, some pend =>
      if isSpaceChar c then fixAnchorAux rest (some (c :: pend))
      else if c = '(' then pend.reverse ++ fixAnchorAux rest (some ['('])
      else pend.reverse ++ c :: fixAnchorAux rest none

def fixAnchorLinks (content : List Char) : List Char :=
  fixAnchorAux content none

/-- `fix_links_and_images`: the image substitution (with its copy side effects),
then the anchor-link cleanup. -/
def fix_links_and_images (w : World) (baseDir content : List Char) : World × List Char :=
  let wc := imageScan baseDir w content
  (wc.1, fixAnchorLinks wc.2)

/-- The zero-width split condition of `re.split(r'(?=^#\s)', ..., re.MULTILINE)`:
the text continuing at this position starts with exactly one `#` followed by a
whitespace character (a second `#` is not whitespace, so `##` never splits). -/
def isSplitPoint : List Char → Bool
  | c :: d :: _ => c == '#' && isSpaceChar d
  | _ => false

/-- Scanner of the multiline zero-width split: a new piece begins after every
newline at which `isSplitPoint` holds for the remaining text. -/
def splitAux : List Char → List Char → List (List Char)
  | [], acc => [acc.reverse]
  | c :: rest, acc =>
      if c = '\n' ∧ isSplitPoint rest then
        (acc.reverse ++ [c]) :: splitAux rest []
      else splitAux rest (c :: acc)

/-- `re.split(r'(?=^#\s)', content, flags=re.MULTILINE)`: a zero-width match at
position 0 contributes a leading empty piece, exactly as in Python. -/
def splitChapters (content : List Char) : List (List Char) :=
  if isSplitPoint content then [] :: splitAux content [] else splitAux content []

/-- Python `str.splitlines()` restricted to `\n` line boundaries (the only line
terminator occurring in this model): terminators are dropped, and a trailing
newline produces no trailing empty line. -/
def splitlines : List Char → List (List Char)
  | [] => []
  | c :: rest =>
      if c = '\n' then [] :: splitlines rest
      else
        match splitlines rest with
        | [] => [[c]]
        | ln :: lns => (c :: ln) :: lns

/-- Python `"\n".join`. -/
def joinNL (ls : List (List Char)) : List Char :=
  List.intercalate ['\n'] ls

/-- Group 1 of `re.match(r'^#{1,6}\s+(.*)', line)` (not yet stripped), or `none`
when the regex does not match: the line must begin with one to six `#` followed
by at least one whitespace character; group 1 is the rest after the maximal
whitespace run (the line contains no newline, so `.*` reaches its end). -/
def headingGroup1? (line : List Char) : Option (List Char) :=
  let hashes := line.takeWhile (fun c => c == '#')
  let r1 := line.dropWhile (fun c => c == '#')
  if 1 ≤ hashes.length ∧ hashes.length ≤ 6 ∧ r1.takeWhile isSpaceChar ≠ [] then
    some (r1.dropWhile isSpaceChar)
  else none

/-- The prefix of `s` before its first occurrence of `{#`, or `none` when there
is no such occurrence. -/
def dropFromBraceHash : List Char → Option (List Char)
  | [] => none
  | '{' :: '#' :: _ => some []
  | c :: rest => (dropFromBraceHash rest).map (c :: ·)

/-- The composite of `re.sub(r'\s*\{\#.*\}$', '', full_heading)` with the final
`.strip()` of the source.  The regex removes text from the first occurrence of
`{#` (together with the whitespace run before it) to the end of the string, and
only matches when the string ends with `}`; the whitespace before `{#` is
removed here by the surrounding strip instead, which yields the same title. -/
def removeAnchorSuffix (s : List Char) : List Char :=
  if s.getLast? = some '}' then
    match dropFromBraceHash s with
    | some pre => pre
    | none => s
  else s

/-- The chapter title computed at lines 130-135 of the script from the processed
first line: group 1 of the heading match, stripped, with a trailing anchor
annotation removed, stripped again; `"Untitled"` when the line is not a heading. -/
def titleOf (line : List Char) : List Char :=
  match headingGroup1? line with
  | none => "Untitled".toList
  | some g1 => stripChars (removeAnchorSuffix (stripChars g1))

def outputDirName : List Char := "docs".toList
def inputFileName : List Char := "CppCoreGuidelines.md".toList
def indexFilePath : List Char := "docs/index.md".toList

/-- The chapter loop of `split_markdown` (lines 120-151): skip chapters that are
empty after stripping, process the first line of each kept chapter, and produce
the ordered file writes and the navigation entries.  The flag is the `first`
variable of the source. -/
def chapterOutputs :
    List (List Char) → Bool →
    List (List Char × List Char) × List (List Char × List Char)
  | [], _ => ([], [])
  | ch :: rest, first =>
      let ch' := stripChars ch
      if ch' = [] then chapterOutputs rest first
      else
        match splitlines ch' with
        | [] => chapterOutputs rest first
        | l0 :: lt =>
            let pl := processHeadingLine l0
            let body := joinNL (pl :: lt) ++ ['\n']
            let title := titleOf pl
            if first then
              let out := chapterOutputs rest false
              ((indexFilePath, body) :: out.1, out.2)
            else
              let fname := slugify title ++ ".md".toList
              let out := chapterOutputs rest false
              ((joinPath outputDirName fname, body) :: out.1, (title, fname) :: out.2)

/-- `split_markdown` with its default arguments: when the input file is absent it
reports and returns no navigation items; otherwise it fixes links and images,
splits into chapters and writes them.  `baseDir` stands for
`os.path.dirname(os.path.abspath(input_file))`, which depends on the working
directory and is therefore a parameter of the model. -/
def split_markdown (w : World) (baseDir : List Char) :
    World × List (List Char × List Char) :=
  match lookupFile inputFileName w.files with
  | none =>
      ({ w with log := ("Input file ".toList ++ inputFileName ++ " not found!".toList) :: w.log },
       [])
  | some content =>
      let wc := fix_links_and_images w baseDir content
      let out := chapterOutputs (splitChapters wc.2) true
      ({ wc.1 with files := applyWrites out.1 wc.1.files }, out.2)

def configFileName : List Char := "mkdocs.yml".toList

/-- The fixed lines appended to `lines` before the `nav:` section in
`update_mkdocs_config` (source lines 171-208). -/
def configPreamble : List (List Char) :=
  ["site_name: C++ Core Guidelines".toList,
   "repo_url: https://github.com/xxrjun/CppCoreGuidelines".toList,
   "repo_name: xxrjun/CppCoreGuidelines".toList,
   "theme:".toList,
   "  name: material".toList,
   "  palette:".toList,
   "    - scheme: default".toList,
   "      primary: indigo".toList,
   "      accent: indigo".toList,
   "      toggle:".toList,
   "        icon: material/brightness-7".toList,
   "        name: Switch to dark mode".toList,
   "    - scheme: slate".toList,
   "      primary: indigo".toList,
   "      accent: indigo".toList,
   "      toggle:".toList,
   "        icon: material/brightness-4".toList,
   "        name: Switch to light mode".toList,
   "  features:".toList,
   "    - content.code.copy".toList,
   "".toList,
   "markdown_extensions:".toList,
   "  - toc:".toList,
   "      permalink: true".toList,
   "      toc_depth: 3".toList,
   "  - pymdownx.highlight:".toList,
   "      anchor_linenums: true".toList,
   "      line_spans: __span".toList,
   "      pygments_lang_class: true".toList,
   "  - pymdownx.inlinehilite".toList,
   "  - pymdownx.snippets".toList,
   "  - pymdownx.superfences".toList,
   "".toList,
   "plugins:".toList,
   "  - search".toList,
   "  - open-in-new-tab".toList,
   "  - with-pdf:".toList,
   "".toList]

/-- The line `f"  - '{title}': {filename}"` appended for one navigation item. -/
def navEntryLine (item : List Char × List Char) : List Char :=
  "  - \x27".toList ++ item.1 ++ "\x27: ".toList ++ item.2

/-- All lines of the generated configuration, in source order. -/
def configLines (navItems : List (List Char × List Char)) : List (List Char) :=
  configPreamble ++
    ["nav:".toList, "  - Home: index.md".toList, "  - NOTICE: NOTICE.md".toList] ++
    navItems.map navEntryLine

/-- `config_content = "\n".join(lines) + "\n"`. -/
def configText (navItems : List (List Char × List Char)) : List Char :=
  joinNL (configLines navItems) ++ ['\n']

/-- `update_mkdocs_config`: do nothing when the configuration file exists,
otherwise write the generated content. -/
def update_mkdocs_config (navItems : List (List Char × List Char)) (w : World) : World :=
  match lookupFile configFileName w.files with
  | some _ => w
  | none => { w with files := writeFile configFileName (configText navItems) w.files }

def indexHeading : List Char := "# C++ Core Guidelines".toList

/-- `update_index_md`: when `docs/index.md` exists, re-fix its links (with the
working directory as base, passed here as `cwd`) and prepend the fixed heading
unless the left-stripped content already starts with it; otherwise create the
file with the heading and a welcome line. -/
def update_index_md (w : World) (cwd : List Char) : World :=
  match lookupFile indexFilePath w.files with
  | some content =>
      let wc := fix_links_and_images w cwd content
      let c2 :=
        if List.isPrefixOf indexHeading (lstripChars wc.2) then wc.2
        else indexHeading ++ '\n' :: '\n' :: wc.2
      { wc.1 with files := writeFile indexFilePath c2 wc.1.files }
  | none =>
      let c0 := indexHeading ++ "\n\nWelcome to C++ Core Guidelines!".toList
      { w with files := writeFile indexFilePath c0 w.files }

def noticeFilePath : List Char := "docs/NOTICE.md".toList

/-- The fixed content written by `create_notice_md`. -/
def noticeText : List Char :=
  ("# NOTICE\n\nWARNING: This documentation is known to have issues:\n\n- **Cross-page anchors may fail:** Internal links (anchors) that reference headings across different pages might not work as expected. PDF generation may also be affected.\n\n## Build Instructions\n\nTo build the documentation with MKDocs and generate a PDF, run the following command:\n\n```bash\n./scripts/build_mkdocs.sh\n```\n\nPlease consult the repository issues or contact the maintainers for further assistance.\n").toList

/-- `create_notice_md`: write the fixed notice file unless it already exists. -/
def create_notice_md (w : World) : World :=
  match lookupFile noticeFilePath w.files with
  | some _ => w
  | none => { w with files := writeFile noticeFilePath noticeText w.files }

/-- `main`: split, then generate the configuration only when navigation items
were produced, then finish the home page and the notice file unconditionally. -/
def mainModel (w : World) (baseDir cwd : List Char) : World :=
  let sm := split_markdown w baseDir
  let w2 := if sm.2 = [] then sm.1 else update_mkdocs_config sm.2 sm.1
  let w3 := update_index_md w2 cwd
  create_notice_md w3

/-! Definitions taken from the words of the specification, used to state the
refinement claims.  They are compared with the definitions translated from the
source. -/

/-- From the spec (4.3): a chapter boundary lies before "a line beginning with
exactly one heading marker followed by whitespace" (a second `#` is not
whitespace, so exactly one marker).  The line keeps its terminating newline,
which is itself whitespace, so a line consisting of a single `#` before a line
break also starts a chapter. -/
def isChapterStartLine : List Char → Bool
  | c :: d :: _ => c == '#' && isSpaceChar d
  | _ => false

/-- The lines of a text, each keeping its terminating newline (the last line may
lack one). -/
def linesKeepNL : List Char → List (List Char)
  | [] => []
  | c :: rest =>
      if c = '\n' then [c] :: linesKeepNL rest
      else
        match linesKeepNL rest with
        | [] => [[c]]
        | ln :: lns => (c :: ln) :: lns

/-- From the spec (4.3): split the document at every line boundary that starts a
level-1 heading.  The pieces are maximal line groups such that every group after
the first begins with a chapter-start line; an empty document gives one empty
piece. -/
def groupPieces : List (List Char) → List (List Char)
  | [] => [[]]
  | l :: rest =>
      match rest with
      | [] => [l]
      | l2 :: _ =>
          match groupPieces rest with
          | [] => [l]
          | p :: ps => if isChapterStartLine l2 then l :: p :: ps else (l ++ p) :: ps

/-- The spec-side pieces of the document: a leading empty piece when the document
itself begins at a chapter boundary, then the line groups. -/
def specPieces (content : List Char) : List (List Char) :=
  let ls := linesKeepNL content
  (if match ls with | l :: _ => isChapterStartLine l | [] => false then [[]] else []) ++
    groupPieces ls

/-- From the spec (4.3): "chapters with no content (only whitespace) are dropped";
the kept chapters are used in stripped form. -/
def retainedChapters (pieces : List (List Char)) : List (List Char) :=
  (pieces.map stripChars).filter (fun c => !c.isEmpty)

/-- The processed first line of a (stripped, nonempty) chapter. -/
def chapterHeadLine (ch : List Char) : List Char :=
  (splitlines ch).headD []

/-- From the spec (4.3, step 2): the display title of a chapter. -/
def chapterTitle (ch : List Char) : List Char :=
  titleOf (processHeadingLine (chapterHeadLine ch))

/-- From the spec (4.3, step 3): slugified title plus the fixed extension. -/
def chapterFileName (ch : List Char) : List Char :=
  slugify (chapterTitle ch) ++ ".md".toList

/-- The text written for a chapter: the processed heading followed by the
remaining lines, with a final newline. -/
def chapterDoc (ch : List Char) : List Char :=
  joinNL (processHeadingLine (chapterHeadLine ch) :: (splitlines ch).tail) ++ ['\n']

/-- From the spec (4.3): the first retained chapter becomes the home page, every
later retained chapter is written to its slug-named file and contributes one
navigation entry, in chapter-appearance order. -/
def specOutputs (content : List Char) :
    List (List Char × List Char) × List (List Char × List Char) :=
  match retainedChapters (specPieces content) with
  | [] => ([], [])
  | home :: rest =>
      ((indexFilePath, chapterDoc home) ::
         rest.map (fun ch => (joinPath outputDirName (chapterFileName ch), chapterDoc ch)),
       rest.map (fun ch => (chapterTitle ch, chapterFileName ch)))

/-- From the spec (4.1): a reference is local iff its path begins with neither
the URL scheme marker nor the absolute-path marker. -/
def isLocalRef (path : List Char) : Bool :=
  !(List.isPrefixOf "http".toList path || List.isPrefixOf "/".toList path)

/-- The branch of `copy_and_update_image` taken for a local reference (resolve,
warn if missing, otherwise copy and rewrite). -/
def localImageBranch (pre path0 suf baseDir : List Char) (w : World) :
    World × List Char :=
  let path := stripChars path0
  let sourcePath := joinPath baseDir (stripDotSegs path)
  match lookupFile sourcePath w.files with
  | none => ({ w with log := warnMsg sourcePath :: w.log }, pre ++ path0 ++ suf)
  | some content =>
      let destPath := "docs/src/".toList ++ basename sourcePath
      let newLink := "src/".toList ++ basename sourcePath
      ({ w with files := writeFile destPath content w.files }, pre ++ newLink ++ suf)

/-- From the spec (4.4): the navigation section of the configuration starts with
the two fixed entries and continues with one line per navigation item in order. -/
def specNavSection (navItems : List (List Char × List Char)) : List (List Char) :=
  "nav:".toList :: "  - Home: index.md".toList :: "  - NOTICE: NOTICE.md".toList ::
    navItems.map navEntryLine

def consFirst (pre : List Char) : List (List Char) → List (List Char)
  | [] => [pre]
  | p :: ps => (pre ++ p) :: ps

/-! Sanity checks of the embedding on concrete inputs. -/

example : processHeadingLine "# <a name=\"S-intro\"></a>Introduction".toList
    = ("# Introduction ".toList ++ '{' :: '#' :: ("S-intro".toList ++ ['}'])) := by decide

example : processHeadingLine "## <a name=\"SS-x\"></a>".toList
    = ("## SS-x ".toList ++ '{' :: '#' :: ("SS-x".toList ++ ['}'])) := by decide

example : processHeadingLine "# Plain heading".toList = "# Plain heading".toList := by decide

example : fixAnchorLinks "see ( /#sec-1) and (/#x)".toList = "see (#sec-1) and (#x)".toList := by
  decide

example : splitChapters "intro\n# A\nbody\n# B".toList
    = ["intro\n".toList, "# A\nbody\n".toList, "# B".toList] := by decide

example : splitChapters "# A\n## Sub\n# B\n".toList
    = ["".toList, "# A\n## Sub\n".toList, "# B\n".toList] := by decide

example : splitlines "a\nb\n".toList = ["a".toList, "b".toList] := by decide

example : splitlines "a\n\n".toList = ["a".toList, "".toList] := by decide

example : titleOf ("# Introduction ".toList ++ '{' :: '#' :: ("S-intro".toList ++ ['}']))
    = "Introduction".toList := by decide

example : titleOf "# In, troduction!".toList = "In, troduction!".toList := by decide

example : chapterOutputs (splitChapters "intro\n\n# A\nbody\n#\n# B x\n".toList) true
    = specOutputs "intro\n\n# A\nbody\n#\n# B x\n".toList := by decide

/-! Generic list lemmas used throughout. -/

theorem takeWhile_append_all {p : Char → Bool} {a : List Char} (b : List Char)
    (ha : ∀ x ∈ a, p x = true) :
    List.takeWhile p (a ++ b) = a ++ List.takeWhile p b := by
  induction a with
  | nil => simp
  | cons c t ih =>
      have hc : p c = true := ha c (by simp)
      simp only [List.cons_append, List.takeWhile_cons, hc, if_true]
      rw [ih fun x hx => ha x (by simp [hx])]

theorem dropWhile_append_all {p : Char → Bool} {a : List Char} (b : List Char)
    (ha : ∀ x ∈ a, p x = true) :
    List.dropWhile p (a ++ b) = List.dropWhile p b := by
  induction a with
  | nil => simp
  | cons c t ih =>
      have hc : p c = true := ha c (by simp)
      simp only [List.cons_append, List.dropWhile_cons, hc, if_true]
      exact ih fun x hx => ha x (by simp [hx])

theorem takeWhile_stop {p : Char → Bool} {c : Char} (t : List Char) (h : p c = false) :
    List.takeWhile p (c :: t) = [] := by
  simp [List.takeWhile_cons, h]

theorem dropWhile_stop {p : Char → Bool} {c : Char} (t : List Char) (h : p c = false) :
    List.dropWhile p (c :: t) = c :: t := by
  simp [List.dropWhile_cons, h]

theorem dropWhile_eq_self_of_all {p : Char → Bool} {l : List Char}
    (h : ∀ x ∈ l, p x = false) : List.dropWhile p l = l := by
  cases l with
  | nil => rfl
  | cons c t => exact dropWhile_stop t (h c (by simp))

theorem map_eq_self_of_fix {f : Char → Char} {l : List Char}
    (h : ∀ x ∈ l, f x = x) : l.map f = l := by
  induction l with
  | nil => rfl
  | cons c t ih =>
      simp only [List.map_cons, h c (by simp)]
      rw [ih fun x hx => h x (by simp [hx])]

/-! Character-class facts. -/

theorem slugChar_not_space {c : Char} (h : slugChar c = true) : isSpaceChar c = false := by
  rcases Bool.or_eq_true_iff.mp h with hw | hd
  · simp only [isWordChar, Bool.or_eq_true_iff, Bool.and_eq_true_iff,
      decide_eq_true_eq, beq_iff_eq] at hw
    simp only [isSpaceChar, Bool.or_eq_false_iff, beq_eq_false_iff_ne]
    omega
  · have : c = '-' := by simpa using hd
    subst this; decide

theorem toNat_ofNat_lower {n : Nat} (h1 : 97 ≤ n) (h2 : n ≤ 122) :
    (Char.ofNat n).toNat = n := by
  interval_cases n <;> decide

theorem toLowerChar_not_upper (c : Char) :
    ¬(65 ≤ (toLowerChar c).toNat ∧ (toLowerChar c).toNat ≤ 90) := by
  by_cases h : 65 ≤ c.toNat ∧ c.toNat ≤ 90
  · simp only [toLowerChar, if_pos h]
    rw [toNat_ofNat_lower (by omega) (by omega)]
    omega
  · simp only [toLowerChar, if_neg h]
    exact h

theorem toLowerChar_fix_of_not_upper {c : Char}
    (h : ¬(65 ≤ c.toNat ∧ c.toNat ≤ 90)) : toLowerChar c = c := by
  simp [toLowerChar, if_neg h]

/-! Membership chains for `slugify`. -/

theorem mem_collapseWsAux {c : Char} {l : List Char}
    (h : c ∈ (collapseWsAux l).1) : c = '-' ∨ c ∈ l := by
  induction l with
  | nil => simp [collapseWsAux] at h
  | cons d t ih =>
      simp only [collapseWsAux] at h
      by_cases hd : isSpaceChar d = true
      · simp only [hd, if_true] at h
        by_cases hs : (collapseWsAux t).2 = true
        · simp only [hs, if_true] at h
          rcases ih h with h1 | h1
          · exact Or.inl h1
          · exact Or.inr (by simp [h1])
        · simp only [Bool.not_eq_true] at hs
          simp only [hs, Bool.false_eq_true, if_false, List.mem_cons] at h
          rcases h with h1 | h1
          · exact Or.inl h1
          · rcases ih h1 with h2 | h2
            · exact Or.inl h2
            · exact Or.inr (by simp [h2])
      · simp only [Bool.not_eq_true] at hd
        simp only [hd, Bool.false_eq_true, if_false, List.mem_cons] at h
        rcases h with h1 | h1
        · exact Or.inr (by simp [h1])
        · rcases ih h1 with h2 | h2
          · exact Or.inl h2
          · exact Or.inr (by simp [h2])

theorem mem_stripChars {c : Char} {l : List Char} (h : c ∈ stripChars l) : c ∈ l := by
  unfold stripChars at h
  rw [List.mem_reverse] at h
  have h1 := (List.dropWhile_sublist (l := (List.dropWhile isSpaceChar l).reverse)
    isSpaceChar).mem h
  rw [List.mem_reverse] at h1
  exact (List.dropWhile_sublist isSpaceChar).mem h1

theorem collapseWsAux_no_space {l : List Char}
    (h : ∀ x ∈ l, isSpaceChar x = false) : collapseWsAux l = (l, false) := by
  induction l with
  | nil => rfl
  | cons c t ih =>
      have hc : isSpaceChar c = false := h c (by simp)
      simp only [collapseWsAux, hc, Bool.false_eq_true, if_false]
      rw [ih fun x hx => h x (by simp [hx])]

theorem stripChars_eq_self_of_no_space {l : List Char}
    (h : ∀ x ∈ l, isSpaceChar x = false) : stripChars l = l := by
  unfold stripChars
  rw [dropWhile_eq_self_of_all h,
    dropWhile_eq_self_of_all (fun x hx => h x (List.mem_reverse.mp hx)),
    List.reverse_reverse]

/-- Helper: every character of a slug is a word character or a hyphen, is not
whitespace and is not uppercase, so a second slugification changes nothing. -/
theorem slugify_slugify (l : List Char) : slugify (slugify l) = slugify l := by
  have hchar : ∀ c ∈ slugify l, slugChar c = true := fun c hc => List.of_mem_filter hc
  have hsrc : ∀ c ∈ slugify l, c = '-' ∨ ∃ a, c = toLowerChar a := by
    intro c hc
    have h2 : c ∈ collapseWs (stripChars (l.map toLowerChar)) := List.mem_of_mem_filter hc
    rcases mem_collapseWsAux h2 with h3 | h3
    · exact Or.inl h3
    · have h4 := mem_stripChars h3
      rcases List.mem_map.mp h4 with ⟨a, _, ha⟩
      exact Or.inr ⟨a, ha.symm⟩
  have hnospace : ∀ c ∈ slugify l, isSpaceChar c = false :=
    fun c hc => slugChar_not_space (hchar c hc)
  have hmapfix : (slugify l).map toLowerChar = slugify l := by
    apply map_eq_self_of_fix
    intro c hc
    rcases hsrc c hc with h1 | ⟨a, ha⟩
    · subst h1; decide
    · subst ha
      exact toLowerChar_fix_of_not_upper (toLowerChar_not_upper a)
  show List.filter slugChar (collapseWs (stripChars ((slugify l).map toLowerChar)))
      = slugify l
  rw [hmapfix, stripChars_eq_self_of_no_space hnospace]
  unfold collapseWs
  rw [collapseWsAux_no_space hnospace]
  exact List.filter_eq_self.mpr hchar

/-! Computation of `processHeadingLine` on a well-formed anchored heading line. -/

theorem takeWhile_head_stop {p : Char → Bool} {a : List Char} {c : Char} (X : List Char)
    (ha : ∀ x ∈ a, p x = true) (hc : p c = false) :
    List.takeWhile p (a ++ c :: X) = a := by
  induction a with
  | nil => simp [List.takeWhile_cons, hc]
  | cons d t ih =>
      have hd : p d = true := ha d (by simp)
      simp only [List.cons_append, List.takeWhile_cons, hd, if_true]
      rw [ih fun x hx => ha x (by simp [hx])]

theorem dropWhile_head_stop {p : Char → Bool} {a : List Char} {c : Char} (X : List Char)
    (ha : ∀ x ∈ a, p x = true) (hc : p c = false) :
    List.dropWhile p (a ++ c :: X) = c :: X := by
  induction a with
  | nil => simp [List.dropWhile_cons, hc]
  | cons d t ih =>
      have hd : p d = true := ha d (by simp)
      simp only [List.cons_append, List.dropWhile_cons, hd, if_true]
      exact ih fun x hx => ha x (by simp [hx])

theorem takeWhile_two_seg {p : Char → Bool} {a b : List Char} (X : List Char)
    (ha : ∀ x ∈ a, p x = true) (hb : ∀ x ∈ b, p x = false) (hbne : b ≠ []) :
    List.takeWhile p (a ++ (b ++ X)) = a := by
  obtain ⟨c, b', rfl⟩ := List.exists_cons_of_ne_nil hbne
  rw [List.cons_append]
  exact takeWhile_head_stop _ ha (hb c (by simp))

theorem dropWhile_two_seg {p : Char → Bool} {a b : List Char} (X : List Char)
    (ha : ∀ x ∈ a, p x = true) (hb : ∀ x ∈ b, p x = false) (hbne : b ≠ []) :
    List.dropWhile p (a ++ (b ++ X)) = b ++ X := by
  obtain ⟨c, b', rfl⟩ := List.exists_cons_of_ne_nil hbne
  rw [List.cons_append]
  exact dropWhile_head_stop _ ha (hb c (by simp))

theorem space_ne_hash {c : Char} (h : isSpaceChar c = true) : (c == '#') = false := by
  rw [beq_eq_false_iff_ne]; intro hcc; subst hcc; exact absurd h (by decide)

/-- Evaluation of `processHeadingLine` on a line made of a heading marker of
`n` hashes, heading whitespace `ws`, the anchor marker `<a name="id"></a>`
(with inner whitespace `ws2`), and trailing text `tail`: the result keeps the
marker and its whitespace, shows the stripped trailing text (or the anchor id
when that is empty) and appends the bracketed anchor id. -/
theorem processHeadingLine_eq (n : Nat) (ws ws2 id tail : List Char) (hn1 : 1 ≤ n) (hn2 : n ≤ 6)
    (hws : ws ≠ []) (hwsall : ∀ c ∈ ws, isSpaceChar c = true)
    (hws2 : ws2 ≠ []) (hws2all : ∀ c ∈ ws2, isSpaceChar c = true)
    (hid : id ≠ []) (hidall : ∀ c ∈ id, c ≠ '"') :
    processHeadingLine
      (List.replicate n '#' ++ (ws ++ ('<' :: 'a' :: (ws2 ++
        ('n' :: 'a' :: 'm' :: 'e' :: '=' :: '"' ::
          (id ++ ('"' :: '>' :: '<' :: '/' :: 'a' :: '>' :: tail)))))))
    = List.replicate n '#' ++ ws ++ (if stripChars tail = [] then id else stripChars tail)
        ++ ' ' :: '{' :: '#' :: (id ++ ['}']) := by
  have hReplAll : ∀ x ∈ List.replicate n '#', (x == '#') = true := by
    intro x hx; rw [List.eq_of_mem_replicate hx]; simp
  have hwsNotHash : ∀ x ∈ ws, (x == '#') = false :=
    fun x hx => space_ne_hash (hwsall x hx)
  have hIdAll : ∀ x ∈ id, (x != '"') = true := by
    intro x hx; simpa using hidall x hx
  simp only [processHeadingLine]
  rw [takeWhile_two_seg _ hReplAll hwsNotHash hws,
    dropWhile_two_seg _ hReplAll hwsNotHash hws,
    takeWhile_head_stop (p := isSpaceChar) _ hwsall (by decide),
    dropWhile_head_stop (p := isSpaceChar) _ hwsall (by decide)]
  rw [if_pos ⟨by simpa using hn1, by simpa using hn2, hws, rfl⟩]
  simp only [List.drop_succ_cons, List.drop_zero]
  rw [takeWhile_head_stop (p := isSpaceChar) _ hws2all (by decide),
    dropWhile_head_stop (p := isSpaceChar) _ hws2all (by decide)]
  rw [if_pos ⟨hws2, by
    rw [show "name=\"".toList = ['n', 'a', 'm', 'e', '=', '"'] from rfl]
    simp [List.isPrefixOf]⟩]
  simp only [List.drop_succ_cons, List.drop_zero]
  rw [takeWhile_head_stop (p := fun c => c != '"') _ hIdAll (by simp),
    dropWhile_head_stop (p := fun c => c != '"') _ hIdAll (by simp)]
  rw [if_pos ⟨hid, rfl⟩]
  simp only [List.drop_succ_cons, List.drop_zero, List.append_assoc, List.cons_append]

/-! Equivalence of the regex-based chapter split with the line-scanning
description of the specification. -/

theorem groupPieces_cons_cons (l l2 : List Char) (r : List (List Char)) :
    groupPieces (l :: l2 :: r) =
      match groupPieces (l2 :: r) with
      | [] => [l]
      | p :: ps => if isChapterStartLine l2 then l :: p :: ps else (l ++ p) :: ps := rfl

theorem groupPieces_ne_nil (ls : List (List Char)) : groupPieces ls ≠ [] := by
  match ls with
  | [] => simp [groupPieces]
  | [l] => simp [groupPieces]
  | l :: l2 :: r =>
      rw [groupPieces_cons_cons]
      cases h : groupPieces (l2 :: r) with
      | nil => simp
      | cons p ps =>
          by_cases hch : isChapterStartLine l2 = true
          · simp [hch]
          · simp [hch]

theorem linesKeepNL_head (x : Char) (xs : List Char) :
    ∃ t r, linesKeepNL (x :: xs) = (x :: t) :: r := by
  by_cases hx : x = '\n'
  · subst hx
    exact ⟨[], linesKeepNL xs, by simp [linesKeepNL]⟩
  · cases h : linesKeepNL xs with
    | nil => exact ⟨[], [], by simp [linesKeepNL, hx, h]⟩
    | cons ln lns => exact ⟨ln, lns, by simp [linesKeepNL, hx, h]⟩

theorem linesKeepNL_eq_nil_iff (l : List Char) : linesKeepNL l = [] ↔ l = [] := by
  cases l with
  | nil => simp [linesKeepNL]
  | cons x xs =>
      obtain ⟨t, r, h⟩ := linesKeepNL_head x xs
      simp [h]

theorem isSplitPoint_eq_head (l : List Char) :
    isSplitPoint l =
      (match linesKeepNL l with | ln :: _ => isChapterStartLine ln | [] => false) := by
  match l with
  | [] => rfl
  | [c] =>
      by_cases hc : c = '\n'
      · subst hc; rfl
      · simp [linesKeepNL, hc, isSplitPoint, isChapterStartLine]
  | c :: d :: r =>
      by_cases hc : c = '\n'
      · subst hc
        simp [linesKeepNL, isSplitPoint, isChapterStartLine]
      · obtain ⟨t, r2, h2⟩ := linesKeepNL_head d r
        have e : linesKeepNL (c :: d :: r) = (c :: d :: t) :: r2 := by
          show (if c = '\n' then [c] :: linesKeepNL (d :: r)
                else match linesKeepNL (d :: r) with
                     | [] => [[c]]
                     | ln :: lns => (c :: ln) :: lns) = (c :: d :: t) :: r2
          rw [if_neg hc, h2]
        rw [e]
        rfl

theorem groupPieces_cons_head (c : Char) (ln : List Char) (lns : List (List Char)) :
    ∃ p ps, groupPieces (ln :: lns) = p :: ps ∧
      groupPieces ((c :: ln) :: lns) = (c :: p) :: ps := by
  match lns with
  | [] => exact ⟨ln, [], rfl, rfl⟩
  | l2 :: r =>
      rw [groupPieces_cons_cons, groupPieces_cons_cons]
      cases h : groupPieces (l2 :: r) with
      | nil => exact absurd h (groupPieces_ne_nil _)
      | cons q qs =>
          by_cases hch : isChapterStartLine l2 = true
          · exact ⟨ln, q :: qs, by simp [hch], by simp [hch]⟩
          · have hch2 : isChapterStartLine l2 = false := by simpa using hch
            exact ⟨ln ++ q, qs, by simp [hch2], by simp [hch2]⟩

theorem isSplitPoint_eq_firstLine {l ln : List Char} {lns : List (List Char)}
    (h : linesKeepNL l = ln :: lns) : isSplitPoint l = isChapterStartLine ln := by
  rw [isSplitPoint_eq_head l, h]

theorem linesKeepNL_cons_nl (rest : List Char) :
    linesKeepNL ('\n' :: rest) = ['\n'] :: linesKeepNL rest := rfl

theorem linesKeepNL_cons_of_head {c d : Char} {r t : List Char} {r2 : List (List Char)}
    (hc : c ≠ '\n') (h2 : linesKeepNL (d :: r) = (d :: t) :: r2) :
    linesKeepNL (c :: d :: r) = (c :: d :: t) :: r2 := by
  show (if c = '\n' then [c] :: linesKeepNL (d :: r)
        else match linesKeepNL (d :: r) with
             | [] => [[c]]
             | ln :: lns => (c :: ln) :: lns) = (c :: d :: t) :: r2
  rw [if_neg hc, h2]

theorem splitAux_cons_pos {c : Char} {rest : List Char} (acc : List Char)
    (h : c = '\n' ∧ isSplitPoint rest = true) :
    splitAux (c :: rest) acc = (acc.reverse ++ [c]) :: splitAux rest [] := by
  show (if c = '\n' ∧ isSplitPoint rest = true then (acc.reverse ++ [c]) :: splitAux rest []
        else splitAux rest (c :: acc)) = _
  rw [if_pos h]

theorem splitAux_cons_neg {c : Char} {rest : List Char} (acc : List Char)
    (h : ¬(c = '\n' ∧ isSplitPoint rest = true)) :
    splitAux (c :: rest) acc = splitAux rest (c :: acc) := by
  show (if c = '\n' ∧ isSplitPoint rest = true then (acc.reverse ++ [c]) :: splitAux rest []
        else splitAux rest (c :: acc)) = _
  rw [if_neg h]

theorem splitAux_eq (l : List Char) : ∀ acc : List Char,
    splitAux l acc = consFirst acc.reverse (groupPieces (linesKeepNL l)) := by
  induction l with
  | nil =>
      intro acc
      simp [splitAux, linesKeepNL, groupPieces, consFirst]
  | cons c rest ih =>
      intro acc
      by_cases hsp : c = '\n' ∧ isSplitPoint rest = true
      · obtain ⟨hc, hs⟩ := hsp
        subst hc
        rw [splitAux_cons_pos acc ⟨rfl, hs⟩, ih]
        cases rest with
        | nil => simp [isSplitPoint] at hs
        | cons d r =>
            obtain ⟨t, r2, h2⟩ := linesKeepNL_head d r
            have hch : isChapterStartLine (d :: t) = true := by
              rw [← isSplitPoint_eq_firstLine h2]; exact hs
            rw [linesKeepNL_cons_nl, h2, groupPieces_cons_cons]
            cases hgp : groupPieces ((d :: t) :: r2) with
            | nil => exact absurd hgp (groupPieces_ne_nil _)
            | cons q qs => simp [consFirst, hch]
      · rw [splitAux_cons_neg acc hsp, ih]
        by_cases hc : c = '\n'
        · subst hc
          have hs : isSplitPoint rest = false := by
            rw [Bool.eq_false_iff]
            intro h
            exact hsp ⟨rfl, h⟩
          rw [linesKeepNL_cons_nl]
          cases rest with
          | nil => simp [linesKeepNL, groupPieces, consFirst]
          | cons d r =>
              obtain ⟨t, r2, h2⟩ := linesKeepNL_head d r
              have hch : isChapterStartLine (d :: t) = false := by
                rw [← isSplitPoint_eq_firstLine h2]; exact hs
              rw [h2, groupPieces_cons_cons]
              cases hgp : groupPieces ((d :: t) :: r2) with
              | nil => exact absurd hgp (groupPieces_ne_nil _)
              | cons q qs => simp [consFirst, hch]
        · cases rest with
          | nil =>
              rw [show linesKeepNL [c] = [[c]] from by
                show (if c = '\n' then [c] :: linesKeepNL []
                      else match linesKeepNL [] with
                           | [] => [[c]]
                           | ln :: lns => (c :: ln) :: lns) = [[c]]
                rw [if_neg hc]
                rfl]
              simp [linesKeepNL, groupPieces, consFirst]
          | cons d r =>
              obtain ⟨t, r2, h2⟩ := linesKeepNL_head d r
              rw [linesKeepNL_cons_of_head hc h2, h2]
              obtain ⟨p, ps, hp1, hp2⟩ := groupPieces_cons_head c (d :: t) r2
              rw [hp1, hp2]
              simp [consFirst]

theorem splitChapters_eq_specPieces (content : List Char) :
    splitChapters content = specPieces content := by
  cases hl : linesKeepNL content with
  | nil =>
      have hc : content = [] := (linesKeepNL_eq_nil_iff content).mp hl
      subst hc; decide
  | cons ln lns =>
      have hs : isSplitPoint content = isChapterStartLine ln := isSplitPoint_eq_firstLine hl
      have ha : splitAux content [] = consFirst [] (groupPieces (linesKeepNL content)) := by
        simpa using splitAux_eq content []
      obtain ⟨p, ps, hp⟩ : ∃ p ps, groupPieces (linesKeepNL content) = p :: ps := by
        cases hgp : groupPieces (linesKeepNL content) with
        | nil => exact absurd hgp (groupPieces_ne_nil _)
        | cons p ps => exact ⟨p, ps, rfl⟩
      simp only [splitChapters, specPieces]
      rw [ha, hp, hl, hs]
      by_cases hch : isChapterStartLine ln = true
      · rw [if_pos hch,
          if_pos (show (match ln :: lns with
            | l :: _ => isChapterStartLine l
            | [] => false) = true from hch)]
        simp [consFirst]
      · rw [if_neg hch,
          if_neg (show ¬(match ln :: lns with
            | l :: _ => isChapterStartLine l
            | [] => false) = true from hch)]
        simp [consFirst]

theorem chapterOutputs_cons_eq (ch : List Char) (rest : List (List Char)) (first : Bool) :
    chapterOutputs (ch :: rest) first =
      if stripChars ch = [] then chapterOutputs rest first
      else
        match splitlines (stripChars ch) with
        | [] => chapterOutputs rest first
        | l0 :: lt =>
            if first then
              ((indexFilePath, joinNL (processHeadingLine l0 :: lt) ++ ['\n']) ::
                 (chapterOutputs rest false).1,
               (chapterOutputs rest false).2)
            else
              ((joinPath outputDirName
                  (slugify (titleOf (processHeadingLine l0)) ++ ".md".toList),
                joinNL (processHeadingLine l0 :: lt) ++ ['\n']) ::
                 (chapterOutputs rest false).1,
               (titleOf (processHeadingLine l0),
                slugify (titleOf (processHeadingLine l0)) ++ ".md".toList) ::
                 (chapterOutputs rest false).2) := rfl

theorem splitlines_eq_nil_iff (l : List Char) : splitlines l = [] ↔ l = [] := by
  cases l with
  | nil => simp [splitlines]
  | cons c rest =>
      by_cases hc : c = '\n'
      · subst hc; simp [splitlines]
      · simp only [splitlines, if_neg hc]
        cases splitlines rest <;> simp

theorem chapterOutputs_false_eq (pieces : List (List Char)) :
    chapterOutputs pieces false =
      ((retainedChapters pieces).map
         (fun ch => (joinPath outputDirName (chapterFileName ch), chapterDoc ch)),
       (retainedChapters pieces).map (fun ch => (chapterTitle ch, chapterFileName ch))) := by
  induction pieces with
  | nil => rfl
  | cons ch rest ih =>
      rw [chapterOutputs_cons_eq]
      by_cases h : stripChars ch = []
      · rw [if_pos h, ih]
        have hret : retainedChapters (ch :: rest) = retainedChapters rest := by
          simp [retainedChapters, h]
        rw [hret]
      · rw [if_neg h]
        cases hsl : splitlines (stripChars ch) with
        | nil => exact absurd ((splitlines_eq_nil_iff _).mp hsl) h
        | cons l0 lt =>
            have hret : retainedChapters (ch :: rest) =
                stripChars ch :: retainedChapters rest := by
              simp [retainedChapters, h]
            rw [hret, ih]
            simp [chapterFileName, chapterTitle, chapterDoc, chapterHeadLine, hsl]

theorem chapterOutputs_true_eq (pieces : List (List Char)) :
    chapterOutputs pieces true =
      match retainedChapters pieces with
      | [] => ([], [])
      | home :: rest2 =>
          ((indexFilePath, chapterDoc home) ::
             rest2.map (fun ch => (joinPath outputDirName (chapterFileName ch), chapterDoc ch)),
           rest2.map (fun ch => (chapterTitle ch, chapterFileName ch))) := by
  induction pieces with
  | nil => rfl
  | cons ch rest ih =>
      rw [chapterOutputs_cons_eq]
      by_cases h : stripChars ch = []
      · rw [if_pos h, ih]
        have hret : retainedChapters (ch :: rest) = retainedChapters rest := by
          simp [retainedChapters, h]
        rw [hret]
      · rw [if_neg h]
        cases hsl : splitlines (stripChars ch) with
        | nil => exact absurd ((splitlines_eq_nil_iff _).mp hsl) h
        | cons l0 lt =>
            have hret : retainedChapters (ch :: rest) =
                stripChars ch :: retainedChapters rest := by
              simp [retainedChapters, h]
            rw [hret, chapterOutputs_false_eq]
            simp [chapterDoc, chapterHeadLine, hsl]

theorem chapterOutputs_split_eq (content : List Char) :
    chapterOutputs (splitChapters content) true = specOutputs content := by
  rw [splitChapters_eq_specPieces, chapterOutputs_true_eq]
  rfl

/-! The claims. -/

/-- C5: slugification is idempotent: for every input string s,
slugify (slugify s) equals slugify s. -/
theorem C5_slugify_idempotent (s : List Char) : slugify (slugify s) = slugify s :=
  slugify_slugify s

/-- C6: an image reference is treated as local if and only if its path begins
with neither the URL scheme marker nor the absolute-path marker: on a non-local
path the callback returns the matched text unchanged with an unchanged world,
and on a local path it proceeds to the local-processing branch. -/
theorem C6_local_iff (pre path0 suf baseDir : List Char) (w : World) :
    copy_and_update_image pre path0 suf baseDir w =
      (if isLocalRef (stripChars path0) then localImageBranch pre path0 suf baseDir w
       else (w, pre ++ path0 ++ suf)) := by
  by_cases h : List.isPrefixOf "http".toList (stripChars path0) = true ∨
      List.isPrefixOf "/".toList (stripChars path0) = true
  · have hloc : isLocalRef (stripChars path0) = false := by
      rcases h with h1 | h1
      · simp only [isLocalRef, h1, Bool.true_or, Bool.not_true]
      · simp only [isLocalRef, h1, Bool.or_true, Bool.not_true]
    rw [if_neg (by simp [hloc])]
    simp only [copy_and_update_image]
    rw [if_pos h]
  · have h1 : List.isPrefixOf "http".toList (stripChars path0) = false := by
      rw [Bool.eq_false_iff]
      intro hh
      exact h (Or.inl hh)
    have h2 : List.isPrefixOf "/".toList (stripChars path0) = false := by
      rw [Bool.eq_false_iff]
      intro hh
      exact h (Or.inr hh)
    have hloc : isLocalRef (stripChars path0) = true := by
      simp only [isLocalRef, h1, h2, Bool.or_false, Bool.not_false]
    rw [if_pos hloc]
    simp only [copy_and_update_image, localImageBranch]
    rw [if_neg h]

/-- Helper: a local path means neither prefix test of the guard succeeds. -/
theorem isLocalRef_guard {path : List Char} (hlocal : isLocalRef path = true) :
    ¬(List.isPrefixOf "http".toList path = true ∨ List.isPrefixOf "/".toList path = true) := by
  intro hc
  unfold isLocalRef at hlocal
  rcases hc with hh | hh <;> rw [hh] at hlocal <;> simp at hlocal

/-- C7: a local image reference whose resolved source file does not exist makes
the callback emit a warning and return the original matched text with the
filesystem unchanged; the function returns normally, so the run continues. -/
theorem C7_missing_asset (pre path0 suf baseDir : List Char) (w : World)
    (hlocal : isLocalRef (stripChars path0) = true)
    (hmiss : lookupFile (joinPath baseDir (stripDotSegs (stripChars path0))) w.files = none) :
    copy_and_update_image pre path0 suf baseDir w =
      ({ w with log := warnMsg (joinPath baseDir (stripDotSegs (stripChars path0))) :: w.log },
       pre ++ path0 ++ suf) := by
  simp only [copy_and_update_image]
  rw [if_neg (isLocalRef_guard hlocal), hmiss]

theorem C7_missing_asset_witness :
    isLocalRef (stripChars "img/a.png".toList) = true ∧
    lookupFile (joinPath "/repo".toList (stripDotSegs (stripChars "img/a.png".toList)))
      (World.mk [] []).files = none ∧
    copy_and_update_image "![x](".toList "img/a.png".toList ")".toList "/repo".toList
        (World.mk [] []) =
      ({ World.mk [] [] with
          log := warnMsg (joinPath "/repo".toList
            (stripDotSegs (stripChars "img/a.png".toList))) :: (World.mk [] []).log },
       "![x](".toList ++ "img/a.png".toList ++ ")".toList) :=
  ⟨by decide, by decide, C7_missing_asset _ _ _ _ _ (by decide) (by decide)⟩

/-- Helper: the successful path of the callback copies the source file to the
assets directory under its base filename and rewrites the link. -/
theorem copy_and_update_image_success (pre path0 suf baseDir : List Char) (w : World)
    (c : List Char) (hlocal : isLocalRef (stripChars path0) = true)
    (hex : lookupFile (joinPath baseDir (stripDotSegs (stripChars path0))) w.files = some c) :
    copy_and_update_image pre path0 suf baseDir w =
      ({ w with files := writeFile ("docs/src/".toList ++ basename (joinPath baseDir (stripDotSegs (stripChars path0)))) c w.files },
       pre ++ ("src/".toList ++ basename (joinPath baseDir (stripDotSegs (stripChars path0))))
         ++ suf) := by
  simp only [copy_and_update_image]
  rw [if_neg (isLocalRef_guard hlocal), hex]

/-- C10: a successfully rewritten local image reference always points to the
assets directory under the base filename of its source; two local references
with equal base filenames are copied to the same destination path and rewritten
to the same link, and the later copy overwrites the earlier one (the destination
afterwards holds the second source's content). -/
theorem C10_basename_collision (pre1 p1 suf1 pre2 p2 suf2 baseDir : List Char) (w : World)
    (c1 c2 : List Char)
    (h1loc : isLocalRef (stripChars p1) = true)
    (h2loc : isLocalRef (stripChars p2) = true)
    (h1ex : lookupFile (joinPath baseDir (stripDotSegs (stripChars p1))) w.files = some c1)
    (h2ex : lookupFile (joinPath baseDir (stripDotSegs (stripChars p2)))
        (copy_and_update_image pre1 p1 suf1 baseDir w).1.files = some c2)
    (hbn : basename (joinPath baseDir (stripDotSegs (stripChars p1)))
        = basename (joinPath baseDir (stripDotSegs (stripChars p2)))) :
    (copy_and_update_image pre1 p1 suf1 baseDir w).2
        = pre1 ++ ("src/".toList ++ basename (joinPath baseDir (stripDotSegs (stripChars p1))))
            ++ suf1 ∧
    (copy_and_update_image pre2 p2 suf2 baseDir
        (copy_and_update_image pre1 p1 suf1 baseDir w).1).2
        = pre2 ++ ("src/".toList ++ basename (joinPath baseDir (stripDotSegs (stripChars p1))))
            ++ suf2 ∧
    lookupFile
        ("docs/src/".toList ++ basename (joinPath baseDir (stripDotSegs (stripChars p1))))
        (copy_and_update_image pre2 p2 suf2 baseDir
          (copy_and_update_image pre1 p1 suf1 baseDir w).1).1.files = some c2 := by
  have e1 := copy_and_update_image_success pre1 p1 suf1 baseDir w c1 h1loc h1ex
  have e2 := copy_and_update_image_success pre2 p2 suf2 baseDir
    (copy_and_update_image pre1 p1 suf1 baseDir w).1 c2 h2loc h2ex
  refine ⟨by rw [e1], ?_, ?_⟩
  · rw [e2, hbn]
  · rw [e2, hbn]
    simp [lookupFile, writeFile]

theorem C10_basename_collision_witness :
    isLocalRef (stripChars "a/x.png".toList) = true ∧
    isLocalRef (stripChars "./b/x.png".toList) = true ∧
    lookupFile (joinPath "/repo".toList (stripDotSegs (stripChars "a/x.png".toList)))
      (World.mk [("/repo/a/x.png".toList, "A".toList), ("/repo/b/x.png".toList, "B".toList)]
        []).files = some "A".toList ∧
    lookupFile (joinPath "/repo".toList (stripDotSegs (stripChars "./b/x.png".toList)))
      (copy_and_update_image "![i](".toList "a/x.png".toList ")".toList "/repo".toList
        (World.mk [("/repo/a/x.png".toList, "A".toList), ("/repo/b/x.png".toList, "B".toList)]
          [])).1.files = some "B".toList ∧
    basename (joinPath "/repo".toList (stripDotSegs (stripChars "a/x.png".toList)))
      = basename (joinPath "/repo".toList (stripDotSegs (stripChars "./b/x.png".toList))) ∧
    ((copy_and_update_image "![i](".toList "a/x.png".toList ")".toList "/repo".toList
        (World.mk [("/repo/a/x.png".toList, "A".toList), ("/repo/b/x.png".toList, "B".toList)]
          [])).2
      = "![i](".toList ++ ("src/".toList ++ basename (joinPath "/repo".toList
          (stripDotSegs (stripChars "a/x.png".toList)))) ++ ")".toList ∧
    (copy_and_update_image "![j](".toList "./b/x.png".toList ")".toList "/repo".toList
        (copy_and_update_image "![i](".toList "a/x.png".toList ")".toList "/repo".toList
          (World.mk [("/repo/a/x.png".toList, "A".toList), ("/repo/b/x.png".toList, "B".toList)]
            [])).1).2
      = "![j](".toList ++ ("src/".toList ++ basename (joinPath "/repo".toList
          (stripDotSegs (stripChars "a/x.png".toList)))) ++ ")".toList ∧
    lookupFile ("docs/src/".toList ++ basename (joinPath "/repo".toList
        (stripDotSegs (stripChars "a/x.png".toList))))
      (copy_and_update_image "![j](".toList "./b/x.png".toList ")".toList "/repo".toList
        (copy_and_update_image "![i](".toList "a/x.png".toList ")".toList "/repo".toList
          (World.mk [("/repo/a/x.png".toList, "A".toList), ("/repo/b/x.png".toList, "B".toList)]
            [])).1).1.files = some "B".toList) :=
  ⟨by decide, by decide, by decide, by decide, by decide,
   C10_basename_collision "![i](".toList "a/x.png".toList ")".toList "![j](".toList
     "./b/x.png".toList ")".toList "/repo".toList
     (World.mk [("/repo/a/x.png".toList, "A".toList), ("/repo/b/x.png".toList, "B".toList)] [])
     "A".toList "B".toList (by decide) (by decide) (by decide) (by decide) (by decide)⟩

/-- C3 as stated is false: with trailing text containing trailing whitespace the
processed line does not retain the trailing text verbatim.  For the heading line
with anchor id `x` and trailing text `Hi` followed by a tab, the output is
`# Hi` followed by the bracketed id, and the original trailing text (with its
tab) occurs nowhere in it, although the line does end with the bracketed id. -/
theorem C3_counterexample :
    processHeadingLine "# <a name=\"x\"></a>Hi\t".toList
        = "# Hi ".toList ++ '{' :: '#' :: ("x".toList ++ ['}']) ∧
    ¬ ("Hi\t".toList <:+: ("# Hi ".toList ++ '{' :: '#' :: ("x".toList ++ ['}']))) := by
  constructor
  · decide
  · decide

/-- C3 amended: for every heading line with a heading marker, an anchor marker
immediately after it and trailing text that is not pure whitespace,
the processed line ends with the exact bracketed anchor id, and it retains
the trailing text with its surrounding whitespace stripped (the stripped
trailing text appears verbatim, immediately before the bracketed id). -/
theorem C3_amended (n : Nat) (ws ws2 id trail : List Char)
    (hn1 : 1 ≤ n) (hn2 : n ≤ 6)
    (hws : ws ≠ []) (hwsall : ∀ c ∈ ws, isSpaceChar c = true)
    (hws2 : ws2 ≠ []) (hws2all : ∀ c ∈ ws2, isSpaceChar c = true)
    (hid : id ≠ []) (hidall : ∀ c ∈ id, c ≠ '"')
    (htrail : stripChars trail ≠ []) :
    processHeadingLine
      (List.replicate n '#' ++ (ws ++ ('<' :: 'a' :: (ws2 ++
        ('n' :: 'a' :: 'm' :: 'e' :: '=' :: '"' ::
          (id ++ ('"' :: '>' :: '<' :: '/' :: 'a' :: '>' :: trail)))))))
        = List.replicate n '#' ++ ws ++ stripChars trail
            ++ ' ' :: '{' :: '#' :: (id ++ ['}']) ∧
    ('{' :: '#' :: (id ++ ['}'])) <:+
      processHeadingLine
        (List.replicate n '#' ++ (ws ++ ('<' :: 'a' :: (ws2 ++
          ('n' :: 'a' :: 'm' :: 'e' :: '=' :: '"' ::
            (id ++ ('"' :: '>' :: '<' :: '/' :: 'a' :: '>' :: trail))))))) ∧
    stripChars trail <:+:
      processHeadingLine
        (List.replicate n '#' ++ (ws ++ ('<' :: 'a' :: (ws2 ++
          ('n' :: 'a' :: 'm' :: 'e' :: '=' :: '"' ::
            (id ++ ('"' :: '>' :: '<' :: '/' :: 'a' :: '>' :: trail))))))) := by
  have e := processHeadingLine_eq n ws ws2 id trail hn1 hn2 hws hwsall hws2 hws2all hid hidall
  rw [if_neg htrail] at e
  refine ⟨e, ?_, ?_⟩
  · rw [e]
    exact ⟨List.replicate n '#' ++ ws ++ stripChars trail ++ [' '],
      by simp [List.append_assoc]⟩
  · rw [e]
    exact ⟨List.replicate n '#' ++ ws, ' ' :: '{' :: '#' :: (id ++ ['}']),
      by simp [List.append_assoc]⟩

theorem C3_amended_witness :
    1 ≤ 1 ∧ 1 ≤ 6 ∧ ([' '] : List Char) ≠ [] ∧ (∀ c ∈ ([' '] : List Char), isSpaceChar c = true) ∧
    ("x".toList : List Char) ≠ [] ∧ (∀ c ∈ "x".toList, c ≠ '"') ∧
    stripChars "Hi\t".toList ≠ [] ∧
    (processHeadingLine
      (List.replicate 1 '#' ++ ([' '] ++ ('<' :: 'a' :: ([' '] ++
        ('n' :: 'a' :: 'm' :: 'e' :: '=' :: '"' ::
          ("x".toList ++ ('"' :: '>' :: '<' :: '/' :: 'a' :: '>' :: "Hi\t".toList)))))))
        = List.replicate 1 '#' ++ [' '] ++ stripChars "Hi\t".toList
            ++ ' ' :: '{' :: '#' :: ("x".toList ++ ['}']) ∧
    ('{' :: '#' :: ("x".toList ++ ['}'])) <:+
      processHeadingLine
        (List.replicate 1 '#' ++ ([' '] ++ ('<' :: 'a' :: ([' '] ++
          ('n' :: 'a' :: 'm' :: 'e' :: '=' :: '"' ::
            ("x".toList ++ ('"' :: '>' :: '<' :: '/' :: 'a' :: '>' :: "Hi\t".toList))))))) ∧
    stripChars "Hi\t".toList <:+:
      processHeadingLine
        (List.replicate 1 '#' ++ ([' '] ++ ('<' :: 'a' :: ([' '] ++
          ('n' :: 'a' :: 'm' :: 'e' :: '=' :: '"' ::
            ("x".toList ++ ('"' :: '>' :: '<' :: '/' :: 'a' :: '>' :: "Hi\t".toList)))))))) :=
  ⟨by decide, by decide, by decide, by decide, by decide, by decide, by decide,
   C3_amended 1 [' '] [' '] "x".toList "Hi\t".toList (by decide) (by decide) (by decide)
     (by decide) (by decide) (by decide) (by decide) (by decide) (by decide)⟩

/-- C4: for every heading line whose anchor marker is followed by empty or
whitespace-only trailing text, the processed heading's visible text equals the
anchor id: the output is the marker, its whitespace, the id, and the bracketed
id. -/
theorem C4_empty_trailing_text (n : Nat) (ws ws2 id trail : List Char)
    (hn1 : 1 ≤ n) (hn2 : n ≤ 6)
    (hws : ws ≠ []) (hwsall : ∀ c ∈ ws, isSpaceChar c = true)
    (hws2 : ws2 ≠ []) (hws2all : ∀ c ∈ ws2, isSpaceChar c = true)
    (hid : id ≠ []) (hidall : ∀ c ∈ id, c ≠ '"')
    (htrail : stripChars trail = []) :
    processHeadingLine
      (List.replicate n '#' ++ (ws ++ ('<' :: 'a' :: (ws2 ++
        ('n' :: 'a' :: 'm' :: 'e' :: '=' :: '"' ::
          (id ++ ('"' :: '>' :: '<' :: '/' :: 'a' :: '>' :: trail)))))))
      = List.replicate n '#' ++ ws ++ id ++ ' ' :: '{' :: '#' :: (id ++ ['}']) := by
  rw [processHeadingLine_eq n ws ws2 id trail hn1 hn2 hws hwsall hws2 hws2all hid hidall,
    if_pos htrail]

theorem C4_empty_trailing_text_witness :
    1 ≤ 2 ∧ 2 ≤ 6 ∧ ([' '] : List Char) ≠ [] ∧ (∀ c ∈ ([' '] : List Char), isSpaceChar c = true) ∧
    ("S-x".toList : List Char) ≠ [] ∧ (∀ c ∈ "S-x".toList, c ≠ '"') ∧
    stripChars "  ".toList = [] ∧
    processHeadingLine
      (List.replicate 2 '#' ++ ([' '] ++ ('<' :: 'a' :: ([' '] ++
        ('n' :: 'a' :: 'm' :: 'e' :: '=' :: '"' ::
          ("S-x".toList ++ ('"' :: '>' :: '<' :: '/' :: 'a' :: '>' :: "  ".toList)))))))
      = List.replicate 2 '#' ++ [' '] ++ "S-x".toList
          ++ ' ' :: '{' :: '#' :: ("S-x".toList ++ ['}']) :=
  ⟨by decide, by decide, by decide, by decide, by decide, by decide, by decide,
   C4_empty_trailing_text 2 [' '] [' '] "S-x".toList "  ".toList (by decide) (by decide)
     (by decide) (by decide) (by decide) (by decide) (by decide) (by decide) (by decide)⟩

/-- C9: if the configuration artifact exists the emitter does nothing and never
overwrites it; otherwise it writes a configuration that is the fixed preamble
followed by the navigation section, which begins with the two fixed entries
(home page, notice page) followed by exactly one line per navigation item in
chapter-appearance order. -/
theorem C9_config_emitter (navItems : List (List Char × List Char)) (w : World) :
    ((lookupFile configFileName w.files).isSome = true →
      update_mkdocs_config navItems w = w) ∧
    ((lookupFile configFileName w.files).isSome = false →
      update_mkdocs_config navItems w =
        { w with files := writeFile configFileName (joinNL (configPreamble ++ specNavSection navItems) ++ ['\n']) w.files }) := by
  constructor
  · intro h
    cases hl : lookupFile configFileName w.files with
    | none => rw [hl] at h; simp at h
    | some c =>
        unfold update_mkdocs_config
        rw [hl]
  · intro h
    cases hl : lookupFile configFileName w.files with
    | some c => rw [hl] at h; simp at h
    | none =>
        unfold update_mkdocs_config
        rw [hl]
        have hc : configText navItems
            = joinNL (configPreamble ++ specNavSection navItems) ++ ['\n'] := by
          unfold configText configLines specNavSection
          simp [List.append_assoc]
        rw [hc]

theorem C9_config_emitter_witness :
    ((lookupFile configFileName
        (World.mk [(configFileName, "x".toList)] []).files).isSome = true ∧
      update_mkdocs_config [("T".toList, "t.md".toList)]
          (World.mk [(configFileName, "x".toList)] [])
        = World.mk [(configFileName, "x".toList)] []) ∧
    ((lookupFile configFileName (World.mk [] []).files).isSome = false ∧
      update_mkdocs_config [("T".toList, "t.md".toList)] (World.mk [] [])
        = { World.mk [] [] with files := writeFile configFileName (joinNL (configPreamble ++ specNavSection [("T".toList, "t.md".toList)]) ++ ['\n']) (World.mk [] []).files }) :=
  ⟨⟨by decide, (C9_config_emitter [("T".toList, "t.md".toList)]
      (World.mk [(configFileName, "x".toList)] [])).1 (by decide)⟩,
   ⟨by decide, (C9_config_emitter [("T".toList, "t.md".toList)]
      (World.mk [] [])).2 (by decide)⟩⟩

set_option maxRecDepth 8000 in
/-- C1 as stated is false: with the source document absent, `split_markdown`
does return an empty chapter list, but the run does not stop there: the
home-page finisher and the notice emitter still run, and on an initially empty
filesystem they create the output files docs/index.md and docs/NOTICE.md,
contradicting that no output files of any kind are created. -/
theorem C1_counterexample :
    (split_markdown (World.mk [] []) "/repo".toList).2 = [] ∧
    lookupFile noticeFilePath
      (mainModel (World.mk [] []) "/repo".toList "/repo".toList).files = some noticeText ∧
    lookupFile indexFilePath
      (mainModel (World.mk [] []) "/repo".toList "/repo".toList).files
      = some (indexHeading ++ "\n\nWelcome to C++ Core Guidelines!".toList) :=
  ⟨by decide, by decide, by decide⟩

/-- C1 amended: if the source document is absent, `split_markdown` reports it
and returns an empty chapter list leaving the filesystem untouched, and `main`
skips the configuration emitter; however the home-page finisher and the notice
emitter still run (so docs/index.md and docs/NOTICE.md may still be created). -/
theorem C1_amended (w : World) (baseDir cwd : List Char)
    (h : lookupFile inputFileName w.files = none) :
    split_markdown w baseDir =
      ({ w with log := ("Input file ".toList ++ inputFileName ++ " not found!".toList) :: w.log }, []) ∧
    mainModel w baseDir cwd =
      create_notice_md (update_index_md
        { w with log := ("Input file ".toList ++ inputFileName ++ " not found!".toList) :: w.log } cwd) := by
  have hsplit : split_markdown w baseDir =
      ({ w with log := ("Input file ".toList ++ inputFileName ++ " not found!".toList) :: w.log }, []) := by
    unfold split_markdown
    rw [h]
  refine ⟨hsplit, ?_⟩
  unfold mainModel
  rw [hsplit]
  simp

theorem C1_amended_witness :
    lookupFile inputFileName (World.mk [] []).files = none ∧
    (split_markdown (World.mk [] []) "/r".toList =
      ({ World.mk [] [] with log := ("Input file ".toList ++ inputFileName ++ " not found!".toList) :: (World.mk [] []).log }, []) ∧
    mainModel (World.mk [] []) "/r".toList "/r".toList =
      create_notice_md (update_index_md
        { World.mk [] [] with log := ("Input file ".toList ++ inputFileName ++ " not found!".toList) :: (World.mk [] []).log } "/r".toList)) :=
  ⟨by decide, C1_amended (World.mk [] []) "/r".toList "/r".toList (by decide)⟩

/-- C2 as stated is false: slugify maps the title Introduction to the string
"introduction", not to "in-troduction", so the two titles of the claim do not
collide. -/
theorem C2_counterexample :
    slugify "Introduction".toList = "introduction".toList ∧
    slugify "In, troduction!".toList = "in-troduction".toList ∧
    slugify "Introduction".toList ≠ slugify "In, troduction!".toList :=
  ⟨by decide, by decide, by decide⟩

/-- C2 amended: the titles "In troduction" and "In, troduction!" both slugify
to "in-troduction", so two chapters with those titles are written to the same
output filename and the second write overwrites the first: after running the
splitter on such a document, both navigation entries carry the same filename
and the file holds the second chapter's content. -/
theorem C2_amended :
    slugify "In troduction".toList = "in-troduction".toList ∧
    slugify "In, troduction!".toList = "in-troduction".toList ∧
    (split_markdown
        (World.mk [(inputFileName,
          "# Home\n\n# In troduction\nbody1\n# In, troduction!\nbody2\n".toList)] [])
        "/repo".toList).2
      = [("In troduction".toList, "in-troduction.md".toList),
         ("In, troduction!".toList, "in-troduction.md".toList)] ∧
    lookupFile "docs/in-troduction.md".toList
      (split_markdown
        (World.mk [(inputFileName,
          "# Home\n\n# In troduction\nbody1\n# In, troduction!\nbody2\n".toList)] [])
        "/repo".toList).1.files
      = some "# In, troduction!\nbody2\n".toList :=
  ⟨by decide, by decide, by decide, by decide⟩

/-- C8: on the fixed-up document text the chapter loop of the splitter agrees
with the specification pipeline: the text is split exactly at the line
boundaries where a line begins with exactly one heading marker followed by
whitespace, chapters that contain only whitespace are dropped, the first
retained chapter is written as the home page, and every later retained chapter
is written to the file named by its slugified title plus the fixed extension
and contributes one navigation entry, in chapter-appearance order. -/
theorem C8_splitter_refines_spec (content : List Char) :
    chapterOutputs (splitChapters content) true = specOutputs content :=
  chapterOutputs_split_eq content
